import Mathlib

/-!
Shallow embedding of `modoboa_installer/utils.py`: the version-encoding
function `convert_version_to_int`, the password generator `make_password`,
and the `settings` context manager over the module-level `ENV` dict.
-/

set_option maxHeartbeats 1000000

namespace Modoboa

/-- The three error kinds `convert_version_to_int` can raise: `ValueError`
from `int()` on a malformed piece (the spec's FormatError),
`NotImplementedError` for too many components (UnsupportedVersionFormat),
and `ValueError` from the bit-range check (OutOfRangeError). -/
inductive VersionError where
  | formatError
  | unsupportedVersionFormat
  | outOfRange
deriving DecidableEq

deriving instance DecidableEq for Except

/-- `version.split(".")` on the character list: the maximal runs between
dots; as in Python, `"".split(".") == [""]` and a trailing dot yields a
final empty piece. -/
def splitOnDot : List Char → List (List Char)
  | [] => [[]]
  | c :: rest =>
    if c = '.' then [] :: splitOnDot rest
    else
      match splitOnDot rest with
      | [] => [[c]]
      | p :: ps => (c :: p) :: ps

/-- Value of a run of decimal digits, most significant first. -/
def digitsToNat (l : List Char) : Nat :=
  l.foldl (fun a c => a * 10 + (c.toNat - Char.toNat '0')) 0

/-- Python `int(piece)` on one dot-separated piece: optional surrounding
whitespace, an optional single `+` or `-` sign, then a nonempty run of
decimal digits; `none` models the `ValueError`. (Underscore digit
separators of Python >= 3.6 and non-ASCII digits are not modelled.) -/
def pyInt (piece : List Char) : Option Int :=
  let trimmed :=
    ((piece.dropWhile Char.isWhitespace).reverse.dropWhile Char.isWhitespace).reverse
  match trimmed with
  | [] => none
  | c :: rest =>
    let ds := if c = '-' ∨ c = '+' then rest else c :: rest
    if ds ≠ [] ∧ ds.all Char.isDigit then
      some (if c = '-' then -(digitsToNat ds : Int) else (digitsToNat ds : Int))
    else none

/-- `[int(number_string) for number_string in version.split(".")]`: `none`
as soon as any piece raises `ValueError`. -/
def parseAll : List (List Char) → Option (List Int)
  | [] => some []
  | p :: ps =>
    match pyInt p, parseAll ps with
    | some n, some ns => some (n :: ns)
    | _, _ => none

/-- The parsed component list of a version string. -/
def parseVersion (version : String) : Option (List Int) :=
  parseAll (splitOnDot version.data)

/-- `number_bits = (8, 8, 16)`. -/
def number_bits : List Nat := [8, 8, 16]

/-- `max_num = (bits + 1) - 1`, exactly as the source writes it. -/
def max_num (bits : Nat) : Nat := (bits + 1) - 1

/-- Python `<<` on `int` with a nonnegative shift amount. -/
def pyShiftLeft (n : Int) (k : Nat) : Int := n * 2 ^ k

/-- The accumulation loop
`for num, bits in reversed(list(zip(numbers, number_bits)))`: raise
`ValueError` when `num >= 1 << max_num`, otherwise
`number += num << total_bits` and `total_bits += bits`. -/
def packLoop : List (Int × Nat) → Int → Nat → Except VersionError Int
  | [], number, _ => .ok number
  | (num, bits) :: rest, number, total_bits =>
    if pyShiftLeft 1 (max_num bits) ≤ num then .error .outOfRange
    else packLoop rest (number + pyShiftLeft num total_bits) (total_bits + bits)

/-- `convert_version_to_int` of `modoboa_installer/utils.py`: split on dots,
parse each piece with `int`, reject more than `len(number_bits)` components,
right-pad with zeros, then run the packing loop over the reversed
`zip(numbers, number_bits)`. -/
def convert_version_to_int (version : String) : Except VersionError Int :=
  match parseVersion version with
  | none => .error .formatError
  | some numbers =>
    if numbers.length > number_bits.length then .error .unsupportedVersionFormat
    else
      let padded := numbers ++ List.replicate (number_bits.length - numbers.length) 0
      packLoop ((padded.zip number_bits).reverse) 0 0

/-! ### Helper lemmas -/

theorem packLoop_ne_format (l : List (Int × Nat)) (number : Int) (total_bits : Nat) :
    packLoop l number total_bits ≠ .error VersionError.formatError := by
  induction l generalizing number total_bits with
  | nil => simp [packLoop]
  | cons p rest ih =>
    obtain ⟨num, bits⟩ := p
    by_cases h : pyShiftLeft 1 (max_num bits) ≤ num <;> simp [packLoop, h, ih]

theorem packLoop_ne_unsupported (l : List (Int × Nat)) (number : Int) (total_bits : Nat) :
    packLoop l number total_bits ≠ .error VersionError.unsupportedVersionFormat := by
  induction l generalizing number total_bits with
  | nil => simp [packLoop]
  | cons p rest ih =>
    obtain ⟨num, bits⟩ := p
    by_cases h : pyShiftLeft 1 (max_num bits) ≤ num <;> simp [packLoop, h, ih]

theorem parseAll_length (ps : List (List Char)) :
    ∀ ns, parseAll ps = some ns → ns.length = ps.length := by
  induction ps with
  | nil =>
    intro ns h
    simp only [parseAll, Option.some.injEq] at h
    simp [← h]
  | cons p pr ih =>
    intro ns h
    unfold parseAll at h
    cases hp : pyInt p <;> rw [hp] at h
    · exact absurd h (by simp)
    · cases hr : parseAll pr <;> rw [hr] at h
      · exact absurd h (by simp)
      · simp only [Option.some.injEq] at h
        simp [← h, ih _ hr]

/-- When the parsed component list has at most 3 entries,
`convert_version_to_int` runs the packing loop on the zero-padded,
reversed `zip` with `number_bits`. -/
theorem conv_eq_packLoop (s : String) (ns : List Int)
    (h : parseVersion s = some ns) (hlen : ns.length ≤ 3) :
    convert_version_to_int s =
      packLoop (((ns ++ List.replicate (3 - ns.length) 0).zip number_bits).reverse) 0 0 := by
  unfold convert_version_to_int
  rw [h]
  dsimp only
  rw [if_neg (by norm_num [number_bits]; omega)]
  norm_num [number_bits]

/-- Specialisation of `conv_eq_packLoop` to exactly three components. -/
theorem conv_eq_three (s : String) (c1 c2 c3 : Int)
    (hp : parseVersion s = some [c1, c2, c3]) :
    convert_version_to_int s = packLoop [(c3, 16), (c2, 8), (c1, 8)] 0 0 := by
  rw [conv_eq_packLoop s [c1, c2, c3] hp (by norm_num)]
  congr 1

/-! ### C1 -/

/-- C1: for a version string of exactly three dot-separated components
`c1.c2.c3` with `c1 < 256`, `c2 < 256`, `c3 < 65536`,
`convert_version_to_int` returns `c1*2^24 + c2*2^16 + c3`. -/
theorem c1_three_component_packing (s : String) (c1 c2 c3 : Nat)
    (hp : parseVersion s = some [(c1 : Int), (c2 : Int), (c3 : Int)])
    (h1 : c1 < 256) (h2 : c2 < 256) (h3 : c3 < 65536) :
    convert_version_to_int s =
      .ok ((c1 : Int) * 2 ^ 24 + (c2 : Int) * 2 ^ 16 + (c3 : Int)) := by
  have hc1 : ¬ pyShiftLeft 1 (max_num 8) ≤ (c1 : Int) := by
    simp only [pyShiftLeft, max_num, not_le]
    push_cast
    omega
  have hc2 : ¬ pyShiftLeft 1 (max_num 8) ≤ (c2 : Int) := by
    simp only [pyShiftLeft, max_num, not_le]
    push_cast
    omega
  have hc3 : ¬ pyShiftLeft 1 (max_num 16) ≤ (c3 : Int) := by
    simp only [pyShiftLeft, max_num, not_le]
    push_cast
    omega
  rw [conv_eq_three s _ _ _ hp]
  simp only [packLoop]
  rw [if_neg hc3, if_neg hc2, if_neg hc1]
  simp only [pyShiftLeft, Except.ok.injEq]
  ring

/-- C1 witness: `convert_version_to_int "1.2.3" = 16908291`. -/
theorem c1_witness : convert_version_to_int "1.2.3" = .ok 16908291 := by
  have h := c1_three_component_packing "1.2.3" 1 2 3 (by decide) (by decide)
    (by decide) (by decide)
  simpa using h

/-! ### C2 -/

/-- C2 counterexample: the range check does not reject 8-bit components
that are at least 9; `convert_version_to_int "9.0.0"` succeeds and returns
`9 * 2^24`. -/
theorem c2_counterexample :
    convert_version_to_int "9.0.0" = .ok 150994944 ∧
    convert_version_to_int "9.0.0" ≠ .error VersionError.outOfRange := by
  exact ⟨by decide, by decide⟩

/-- C2 (amended): the source computes `max_num = (bits + 1) - 1 = bits` but
then compares `num >= 1 << max_num`, so the effective rejection threshold is
the genuine `2^bits`, i.e. the accepted range is `0..2^bits - 1`; in
particular `"9.0.0"` is accepted. -/
theorem c2_amended_effective_ceiling (num : Int) (bits : Nat) :
    (max_num bits = bits) ∧
    (pyShiftLeft 1 (max_num bits) ≤ num ↔ (2 ^ bits : Int) ≤ num) ∧
    convert_version_to_int "9.0.0" = .ok 150994944 := by
  refine ⟨rfl, ?_, by decide⟩
  simp [pyShiftLeft, max_num]

/-! ### C3 -/

/-- C3: for a version string with exactly three parsed components,
`convert_version_to_int` fails with the out-of-range error exactly when a
component exceeds the maximum representable value of its bit-width slot
(255, 255 and 65535 respectively). -/
theorem c3_out_of_range_iff (s : String) (c1 c2 c3 : Int)
    (hp : parseVersion s = some [c1, c2, c3]) :
    (convert_version_to_int s = .error VersionError.outOfRange ↔
      (255 < c1 ∨ 255 < c2 ∨ 65535 < c3)) := by
  rw [conv_eq_three s _ _ _ hp]
  have e8 : pyShiftLeft (1 : Int) (max_num 8) = 256 := by
    norm_num [pyShiftLeft, max_num]
  have e16 : pyShiftLeft (1 : Int) (max_num 16) = 65536 := by
    norm_num [pyShiftLeft, max_num]
  simp only [packLoop, e8, e16]
  by_cases h3 : (65536 : Int) ≤ c3
  · rw [if_pos h3]
    simp only [eq_self_iff_true, true_iff]
    omega
  · rw [if_neg h3]
    by_cases h2 : (256 : Int) ≤ c2
    · rw [if_pos h2]
      simp only [eq_self_iff_true, true_iff]
      omega
    · rw [if_neg h2]
      by_cases h1 : (256 : Int) ≤ c1
      · rw [if_pos h1]
        simp only [eq_self_iff_true, true_iff]
        omega
      · rw [if_neg h1]
        constructor
        · intro hcontr
          simp at hcontr
        · intro hr
          exfalso
          omega

/-- C3 witness: `"256.0.0"` fails with the out-of-range error while
`"255.0.0"` succeeds, returning `255 * 2^24`. -/
theorem c3_witness :
    convert_version_to_int "256.0.0" = .error VersionError.outOfRange ∧
    convert_version_to_int "255.0.0" = .ok 4278190080 := by
  refine ⟨?_, by decide⟩
  exact (c3_out_of_range_iff "256.0.0" 256 0 0 (by decide)).mpr (by norm_num)

/-! ### C4 -/

/-- C4 counterexample: `"-1"` is not a valid non-negative integer, yet
`convert_version_to_int "-1.0.0"` does not fail with the format error:
`int` parses the signed piece to `-1` and the function returns `-1 * 2^24`. -/
theorem c4_counterexample :
    convert_version_to_int "-1.0.0" = .ok (-16777216) ∧
    convert_version_to_int "-1.0.0" ≠ .error VersionError.formatError := by
  exact ⟨by decide, by decide⟩

/-- C4 (amended): the format error is raised exactly when some dot-separated
piece fails to parse as a (possibly signed) Python integer literal; a signed
piece such as `"-1"` parses, so `"-1.0.0"` does not raise, while `"1.a.3"`
does. -/
theorem c4_format_error_iff (s : String) :
    convert_version_to_int s = .error VersionError.formatError ↔
      parseVersion s = none := by
  cases hpv : parseVersion s with
  | none =>
    unfold convert_version_to_int
    rw [hpv]
    simp
  | some ns =>
    unfold convert_version_to_int
    rw [hpv]
    dsimp only
    by_cases hl : ns.length > number_bits.length
    · rw [if_pos hl]
      simp
    · rw [if_neg hl]
      simp [packLoop_ne_format]

/-- C4 witness: `"1.a.3"` fails with the format error. -/
theorem c4_witness :
    convert_version_to_int "1.a.3" = .error VersionError.formatError := by
  exact (c4_format_error_iff "1.a.3").mpr (by decide)

/-! ### C5 -/

/-- C5 counterexample: `"1.a.3.4"` has four dot-separated components, more
than the three bit-width slots, yet it fails with the format error (the
`int` parse runs before the component-count check), not with
`NotImplementedError`. -/
theorem c5_counterexample :
    (splitOnDot "1.a.3.4".data).length = 4 ∧
    convert_version_to_int "1.a.3.4" = .error VersionError.formatError ∧
    convert_version_to_int "1.a.3.4" ≠ .error VersionError.unsupportedVersionFormat := by
  exact ⟨by decide, by decide, by decide⟩

/-- C5 (amended): `NotImplementedError` is raised iff every piece parses as
an integer and there are more than three dot-separated components. -/
theorem c5_unsupported_iff (s : String) :
    convert_version_to_int s = .error VersionError.unsupportedVersionFormat ↔
      ((parseVersion s).isSome ∧ 3 < (splitOnDot s.data).length) := by
  cases hpv : parseVersion s with
  | none =>
    unfold convert_version_to_int
    rw [hpv]
    simp
  | some ns =>
    have hlen : ns.length = (splitOnDot s.data).length := parseAll_length _ _ hpv
    unfold convert_version_to_int
    rw [hpv]
    dsimp only
    by_cases hl : ns.length > number_bits.length
    · rw [if_pos hl]
      norm_num [number_bits] at hl
      simp only [eq_self_iff_true, true_iff, Option.isSome_some, true_and]
      omega
    · rw [if_neg hl]
      norm_num [number_bits] at hl
      constructor
      · intro hcontr
        exact absurd hcontr (packLoop_ne_unsupported _ _ _)
      · intro hr
        exfalso
        obtain ⟨-, hr2⟩ := hr
        omega

/-- C5 witness: `"1.2.3.4"` fails with `NotImplementedError`. -/
theorem c5_witness :
    convert_version_to_int "1.2.3.4" = .error VersionError.unsupportedVersionFormat := by
  exact (c5_unsupported_iff "1.2.3.4").mpr (by exact ⟨by decide, by decide⟩)

/-! ### C6 -/

theorem splitOnDot_ne_nil (l : List Char) : splitOnDot l ≠ [] := by
  cases l with
  | nil => simp [splitOnDot]
  | cons c rest =>
    unfold splitOnDot
    by_cases h : c = '.'
    · simp [h]
    · rw [if_neg h]
      cases hs : splitOnDot rest <;> simp

theorem splitOnDot_append_dot (a b : List Char) :
    splitOnDot (a ++ '.' :: b) = splitOnDot a ++ splitOnDot b := by
  induction a with
  | nil =>
    simp [splitOnDot]
  | cons c rest ih =>
    rw [List.cons_append]
    by_cases h : c = '.'
    · subst h
      unfold splitOnDot
      rw [if_pos rfl, if_pos rfl, ih]
      simp
      exact splitOnDot.eq_def b
    · unfold splitOnDot
      rw [if_neg h, if_neg h, ih]
      cases hs : splitOnDot rest with
      | nil => exact absurd hs (splitOnDot_ne_nil rest)
      | cons p ps =>
        simp
        exact splitOnDot.eq_def b

theorem parseAll_append_zero (ps : List (List Char)) :
    parseAll (ps ++ [['0']]) = (parseAll ps).map (fun ns => ns ++ [0]) := by
  induction ps with
  | nil => rfl
  | cons p pr ih =>
    rw [List.cons_append]
    unfold parseAll
    rw [ih]
    cases hp : pyInt p <;> cases hr : parseAll pr <;> simp

/-- C6: a version string with fewer than three dot-separated components is
equivalent to the same string with `".0"` appended (the missing trailing
component defaults to zero). -/
theorem c6_missing_component_zero (s : String)
    (h : (splitOnDot s.data).length < 3) :
    convert_version_to_int s = convert_version_to_int (s ++ ".0") := by
  have hdata : (s ++ ".0").data = s.data ++ '.' :: ['0'] := by
    cases s
    rfl
  have hsplit : splitOnDot (s ++ ".0").data = splitOnDot s.data ++ [['0']] := by
    rw [hdata, splitOnDot_append_dot]
    rfl
  unfold convert_version_to_int parseVersion
  rw [hsplit, parseAll_append_zero]
  cases hpa : parseAll (splitOnDot s.data) with
  | none => simp
  | some ns =>
    have hlen : ns.length = (splitOnDot s.data).length := parseAll_length _ _ hpa
    rw [show (some ns).map (fun l => l ++ [(0 : Int)]) = some (ns ++ [(0 : Int)]) from rfl]
    dsimp only
    rw [if_neg (by norm_num [number_bits]; omega), if_neg (by norm_num [number_bits]; omega)]
    have hpad : ns ++ List.replicate (number_bits.length - ns.length) 0
        = (ns ++ [(0 : Int)]) ++
            List.replicate (number_bits.length - (ns ++ [(0 : Int)]).length) 0 := by
      have hnb : number_bits.length = 3 := by norm_num [number_bits]
      rw [hnb]
      have hk : (3 : Nat) - ns.length = (3 - (ns ++ [(0 : Int)]).length) + 1 := by
        simp only [List.length_append, List.length_cons, List.length_nil]
        omega
      rw [hk, List.replicate_succ, List.append_assoc]
      rfl
    rw [hpad]

/-- C6 witness: `"1.2"` encodes like `"1.2.0"` and `"5"` like `"5.0.0"`. -/
theorem c6_witness :
    convert_version_to_int "1.2" = convert_version_to_int "1.2.0" ∧
    convert_version_to_int "5" = convert_version_to_int "5.0.0" := by
  constructor
  · exact c6_missing_component_zero "1.2" (by decide)
  · exact (c6_missing_component_zero "5" (by decide)).trans
      (c6_missing_component_zero "5.0" (by decide))

/-! ### C7 -/

theorem packLoop_nonneg (l : List (Int × Nat)) :
    ∀ number total_bits r, (∀ p ∈ l, 0 ≤ p.1) → 0 ≤ number →
      packLoop l number total_bits = .ok r → 0 ≤ r := by
  induction l with
  | nil =>
    intro number total_bits r _ hn hr
    simp only [packLoop, Except.ok.injEq] at hr
    omega
  | cons p rest ih =>
    intro number total_bits r hall hn hr
    obtain ⟨num, bits⟩ := p
    by_cases hc : pyShiftLeft 1 (max_num bits) ≤ num
    · simp [packLoop, hc] at hr
    · simp only [packLoop, hc, if_false] at hr
      refine ih _ _ _ (fun q hq => hall q (List.mem_cons_of_mem _ hq)) ?_ hr
      have h0 : 0 ≤ num := hall (num, bits) (List.mem_cons_self _ _)
      have hs : 0 ≤ pyShiftLeft num total_bits := by
        simp only [pyShiftLeft]
        exact mul_nonneg h0 (by positivity)
      omega

/-- C7 counterexample: `convert_version_to_int "-1.0.0"` returns without an
error, yet the returned value is negative. -/
theorem c7_counterexample :
    convert_version_to_int "-1.0.0" = .ok (-16777216) ∧
    ¬ (0 : Int) ≤ -16777216 := by
  exact ⟨by decide, by decide⟩

/-- C7 (amended): when every parsed component is non-negative, a returned
encoded version is non-negative (a signed component such as `"-1"` can
make the result negative). -/
theorem c7_nonneg_result (s : String) (ns : List Int) (r : Int)
    (hp : parseVersion s = some ns) (hall : ∀ n ∈ ns, 0 ≤ n)
    (hr : convert_version_to_int s = .ok r) : 0 ≤ r := by
  by_cases hl : ns.length ≤ 3
  · rw [conv_eq_packLoop s ns hp hl] at hr
    refine packLoop_nonneg _ _ _ _ ?_ le_rfl hr
    intro q hq
    rw [List.mem_reverse] at hq
    obtain ⟨a, b⟩ := q
    obtain ⟨ha, -⟩ := List.of_mem_zip hq
    rcases List.mem_append.mp ha with hmem | hmem
    · exact hall _ hmem
    · rw [List.eq_of_mem_replicate hmem]
  · unfold convert_version_to_int at hr
    rw [hp] at hr
    dsimp only at hr
    rw [if_pos (by norm_num [number_bits]; omega)] at hr
    exact absurd hr (by simp)

/-- C7 witness: `"1.2.3"` has non-negative components and its encoding
`16908291` is non-negative. -/
theorem c7_witness :
    convert_version_to_int "1.2.3" = .ok 16908291 ∧ (0 : Int) ≤ 16908291 := by
  exact ⟨by decide,
    c7_nonneg_result "1.2.3" [1, 2, 3] 16908291 (by decide) (by decide) (by decide)⟩

/-! ### C8 -/

/-- The module-level mutable state of `utils.py` visible to these helpers:
the `ENV` dict, modelled as an association list without duplicate keys. -/
abbrev Env (α : Type) : Type := List (String × α)

/-- `convert_version_to_int` threaded through the module state: its body
names no module-level variable (in particular it never touches `ENV`), so
its state-passing form returns the pure result and the state unchanged. -/
def convert_version_to_int_st (α : Type) (env : Env α) (version : String) :
    Except VersionError Int × Env α :=
  (convert_version_to_int version, env)

/-- C8: `convert_version_to_int` is deterministic and side-effect free: the
result does not depend on the module state, the module state is returned
unchanged, and identical inputs give identical outputs. -/
theorem c8_pure_and_deterministic (α : Type) (env env2 : Env α) (s : String) :
    (convert_version_to_int_st α env s).1 = (convert_version_to_int_st α env2 s).1 ∧
    (convert_version_to_int_st α env s).2 = env ∧
    convert_version_to_int s = convert_version_to_int s := by
  exact ⟨rfl, rfl, rfl⟩

/-! ### C9 -/

/-- `string.ascii_letters`: the lowercase followed by the uppercase ASCII
letters. -/
def ascii_letters : List Char :=
  ("abcdefghijklmnopqrstuvwxyz" ++ "ABCDEFGHIJKLMNOPQRSTUVWXYZ").data

/-- `string.digits`. -/
def ascii_digits : List Char := "0123456789".data

/-- `string.ascii_letters + string.digits`, the population
`make_password` draws from. -/
def password_alphabet : List Char := ascii_letters ++ ascii_digits

/-- `make_password` of `utils.py`: one `random.SystemRandom().choice` per
loop iteration, modelled by the oracle `pick` giving the index drawn at
each iteration; the source's default argument is `length=16`. -/
def make_password (pick : Nat → Fin password_alphabet.length)
    (length : Nat := 16) : String :=
  ⟨(List.range length).map fun i => password_alphabet.get (pick i)⟩

theorem password_alphabet_alnum :
    ∀ c ∈ password_alphabet, c.isAlpha = true ∨ c.isDigit = true := by
  decide

/-- C9: `make_password` returns a string of exactly `length` characters,
each an ASCII letter or decimal digit, and the default length is 16. -/
theorem c9_make_password (pick : Nat → Fin password_alphabet.length)
    (length : Nat) :
    (make_password pick length).length = length ∧
    (∀ c ∈ (make_password pick length).data, c.isAlpha = true ∨ c.isDigit = true) ∧
    make_password pick = make_password pick 16 := by
  refine ⟨?_, ?_, rfl⟩
  · simp [make_password, String.length]
  · intro c hc
    simp only [make_password, List.mem_map, List.mem_range] at hc
    obtain ⟨i, -, hi⟩ := hc
    rw [← hi]
    exact password_alphabet_alnum _
      (List.get_mem password_alphabet (pick i).1 (pick i).2)

/-! ### C10 -/

/-- `ENV[key] = value`: replace the binding of `key` or add one. -/
def envSet {α : Type} : Env α → String → α → Env α
  | [], k, v => [(k, v)]
  | (k2, v2) :: rest, k, v =>
    if k2 = k then (k, v) :: rest else (k2, v2) :: envSet rest k v

/-- `del ENV[key]`: drop the (unique) binding of `key`. -/
def envDel {α : Type} : Env α → String → Env α
  | [], _ => []
  | (k2, v2) :: rest, k => if k2 = k then rest else (k2, v2) :: envDel rest k

/-- `ENV.get(key)`. -/
def envLookup {α : Type} : Env α → String → Option α
  | [], _ => none
  | (k2, v2) :: rest, k => if k2 = k then some v2 else envLookup rest k

/-- The keys of the `ENV` dict. -/
def envKeys {α : Type} (env : Env α) : List String := env.map Prod.fst

/-- The `settings(**kwargs)` body before `yield`:
`for key, value in kwargs.items(): ENV[key] = value`. -/
def settings_enter {α : Type} (env : Env α) (kwargs : Env α) : Env α :=
  kwargs.foldl (fun e kv => envSet e kv.1 kv.2) env

/-- The `settings(**kwargs)` body after `yield`, run on normal exit:
`for key in kwargs.keys(): del ENV[key]`. -/
def settings_exit {α : Type} (env : Env α) (kwargs : Env α) : Env α :=
  kwargs.foldl (fun e kv => envDel e kv.1) env

/-- A whole `with settings(**kwargs):` block whose body leaves `ENV`
alone: enter, then normal exit. -/
def settings_with {α : Type} (env kwargs : Env α) : Env α :=
  settings_exit (settings_enter env kwargs) kwargs

theorem envLookup_eq_none_of_not_mem {α : Type} (env : Env α) (k : String)
    (h : k ∉ envKeys env) : envLookup env k = none := by
  induction env with
  | nil => rfl
  | cons kv rest ih =>
    obtain ⟨k2, v2⟩ := kv
    simp only [envKeys, List.map_cons, List.mem_cons, not_or] at h
    unfold envLookup
    rw [if_neg (fun hkk => h.1 hkk.symm), ih (by simpa [envKeys] using h.2)]

theorem mem_envKeys_envSet {α : Type} (env : Env α) (k k2 : String) (v : α) :
    k2 ∈ envKeys (envSet env k v) ↔ (k2 ∈ envKeys env ∨ k2 = k) := by
  induction env with
  | nil => simp [envSet, envKeys]
  | cons kv rest ih =>
    obtain ⟨k3, v3⟩ := kv
    unfold envSet
    by_cases hk : k3 = k
    · rw [if_pos hk]
      subst hk
      simp [envKeys]
      tauto
    · rw [if_neg hk]
      simp only [envKeys, List.map_cons, List.mem_cons] at ih ⊢
      rw [ih]
      tauto

theorem envKeys_envSet_nodup {α : Type} (env : Env α) (k : String) (v : α)
    (h : (envKeys env).Nodup) : (envKeys (envSet env k v)).Nodup := by
  induction env with
  | nil => simp [envSet, envKeys]
  | cons kv rest ih =>
    obtain ⟨k3, v3⟩ := kv
    simp only [envKeys, List.map_cons, List.nodup_cons] at h
    unfold envSet
    by_cases hk : k3 = k
    · rw [if_pos hk]
      subst hk
      simp only [envKeys, List.map_cons, List.nodup_cons]
      exact h
    · rw [if_neg hk]
      simp only [envKeys, List.map_cons, List.nodup_cons]
      refine ⟨?_, ih h.2⟩
      intro hmem
      rcases (mem_envKeys_envSet rest k k3 v).mp hmem with hin | heq
      · exact h.1 hin
      · exact hk heq

theorem envKeys_envDel_sublist {α : Type} (env : Env α) (k : String) :
    (envKeys (envDel env k)).Sublist (envKeys env) := by
  induction env with
  | nil => simp [envDel]
  | cons kv rest ih =>
    obtain ⟨k2, v2⟩ := kv
    unfold envDel
    by_cases hk : k2 = k
    · rw [if_pos hk]
      exact (List.Sublist.refl _).cons _
    · rw [if_neg hk]
      simp only [envKeys, List.map_cons]
      exact ih.cons₂ k2

theorem envLookup_envDel_self {α : Type} (env : Env α) (k : String)
    (h : (envKeys env).Nodup) : envLookup (envDel env k) k = none := by
  induction env with
  | nil => rfl
  | cons kv rest ih =>
    obtain ⟨k2, v2⟩ := kv
    simp only [envKeys, List.map_cons, List.nodup_cons] at h
    unfold envDel
    by_cases hk : k2 = k
    · rw [if_pos hk]
      subst hk
      exact envLookup_eq_none_of_not_mem rest k2 h.1
    · rw [if_neg hk]
      unfold envLookup
      rw [if_neg hk]
      exact ih h.2

theorem envLookup_envDel_none {α : Type} (env : Env α) (k k2 : String)
    (h : envLookup env k = none) : envLookup (envDel env k2) k = none := by
  induction env with
  | nil => rfl
  | cons kv rest ih =>
    obtain ⟨k3, v3⟩ := kv
    unfold envLookup at h
    by_cases hk : k3 = k
    · rw [if_pos hk] at h
      exact absurd h (by simp)
    · rw [if_neg hk] at h
      unfold envDel
      by_cases hk2 : k3 = k2
      · rw [if_pos hk2]
        exact h
      · rw [if_neg hk2]
        unfold envLookup
        rw [if_neg hk]
        exact ih h

theorem settings_exit_none {α : Type} (kwargs : Env α) :
    ∀ env k, envLookup env k = none →
      envLookup (settings_exit env kwargs) k = none := by
  induction kwargs with
  | nil => intro env k h; exact h
  | cons kv rest ih =>
    intro env k h
    rw [show settings_exit env (kv :: rest) =
      settings_exit (envDel env kv.1) rest from rfl]
    exact ih _ _ (envLookup_envDel_none env k kv.1 h)

theorem settings_exit_removes {α : Type} (kwargs : Env α) :
    ∀ env k, (envKeys env).Nodup → k ∈ envKeys kwargs →
      envLookup (settings_exit env kwargs) k = none := by
  induction kwargs with
  | nil =>
    intro env k _ hk
    exact absurd hk (by simp [envKeys])
  | cons kv rest ih =>
    intro env k hnd hk
    obtain ⟨k0, v0⟩ := kv
    rw [show settings_exit env ((k0, v0) :: rest) =
      settings_exit (envDel env k0) rest from rfl]
    simp only [envKeys, List.map_cons, List.mem_cons] at hk
    rcases hk with heq | hmem
    · subst heq
      exact settings_exit_none rest _ _ (envLookup_envDel_self env k hnd)
    · exact ih (envDel env k0) k
        ((envKeys_envDel_sublist env k0).nodup hnd) hmem

theorem settings_enter_nodup {α : Type} (kwargs : Env α) :
    ∀ env, (envKeys env).Nodup →
      (envKeys (settings_enter env kwargs)).Nodup := by
  induction kwargs with
  | nil => intro env h; exact h
  | cons kv rest ih =>
    intro env h
    rw [show settings_enter env (kv :: rest) =
      settings_enter (envSet env kv.1 kv.2) rest from rfl]
    exact ih _ (envKeys_envSet_nodup env kv.1 kv.2 h)

/-- C10: on normal exit the `settings` context manager deletes every key it
was given from `ENV` outright, whether or not the key was already bound
before entry; after the with-block the key is unbound, so a pre-existing
binding for an overridden key is not restored but lost. -/
theorem c10_settings_deletes_keys (α : Type) (env kwargs : Env α) (k : String)
    (henv : (envKeys env).Nodup) (_hkw : (envKeys kwargs).Nodup)
    (hk : k ∈ envKeys kwargs) :
    envLookup (settings_with env kwargs) k = none := by
  unfold settings_with
  exact settings_exit_removes kwargs (settings_enter env kwargs) k
    (settings_enter_nodup kwargs env henv) hk

/-- C10 witness: a pre-existing `sudo_user` binding is gone, not restored,
after a block that overrode it exits normally. -/
theorem c10_witness :
    envLookup (settings_with [("sudo_user", "old")] [("sudo_user", "new")])
      "sudo_user" = none := by
  exact c10_settings_deletes_keys String [("sudo_user", "old")]
    [("sudo_user", "new")] "sudo_user" (by decide) (by decide) (by decide)

end Modoboa
